import Mathlib

/-!
Verification of the RDT protocol repository (packet codec, Selective-Repeat
session state machine, impairment emulator) against its specification.

The Python sources are shallowly embedded: bytes become `List Nat` (each
entry a byte value), machine integers become `Nat` with explicit bounds or
`% 2^w` masking where the source masks, dictionaries become association
lists, and fallible operations return `Option`.
-/

namespace RDT

/-! ## CRC32 (zlib-compatible), from `zlib.crc32` as used by `protocol.py`

`zlib.crc32` is the standard reflected CRC-32 (polynomial 0xEDB88320),
initial register 0xFFFFFFFF, final XOR 0xFFFFFFFF, processing input bytes
low-bit first.  We embed the classic bitwise formulation (one register
round per bit), which is the defining algorithm of the table-driven code
zlib runs. -/

/-- One bit-round of the reflected CRC-32: shift the register right and,
if the bit shifted out was set, XOR in the reversed polynomial. -/
def crcRound (r : Nat) : Nat :=
  if r % 2 = 1 then (r >>> 1) ^^^ 0xEDB88320 else r >>> 1

/-- Absorb one byte `b` into the CRC register `c`: XOR the byte into the
low bits, then run eight bit-rounds. -/
def crcUpdate (c b : Nat) : Nat :=
  crcRound^[8] (c ^^^ b)

/-- `zlib.crc32(bs) & 0xFFFFFFFF` over a byte list `bs` (init and final
XOR 0xFFFFFFFF; the trailing mask mirrors the `& 0xFFFFFFFF` in
`protocol.py`). -/
def crc32 (bs : List Nat) : Nat :=
  ((bs.foldl crcUpdate 0xFFFFFFFF) ^^^ 0xFFFFFFFF) &&& 0xFFFFFFFF

/-! ## Big-endian field codecs, from `struct.pack`/`struct.unpack`
with format `!I B H I` (network byte order). -/

/-- `struct.pack("!H", n)`: two big-endian bytes of a 16-bit value. -/
def be2 (n : Nat) : List Nat :=
  [n / 256 % 256, n % 256]

/-- `struct.pack("!I", n)`: four big-endian bytes of a 32-bit value. -/
def be4 (n : Nat) : List Nat :=
  [n / 16777216 % 256, n / 65536 % 256, n / 256 % 256, n % 256]

/-- `struct.unpack("!H", [a, b])`: recompose a 16-bit value. -/
def from2 (a b : Nat) : Nat :=
  a * 256 + b

/-- `struct.unpack("!I", [a, b, c, d])`: recompose a 32-bit value. -/
def from4 (a b c d : Nat) : Nat :=
  ((a * 256 + b) * 256 + c) * 256 + d

/-! ## Packet codec, from `protocol.py` -/

/-- `MAX_PAYLOAD` in `protocol.py`. -/
def MAX_PAYLOAD : Nat := 32

/-- `HEADER_SIZE = struct.calcsize("!I B H I")` in `protocol.py`. -/
def HEADER_SIZE : Nat := 11

/-- `FLAG_ACK` in `protocol.py`. -/
def FLAG_ACK : Nat := 1

/-- A `protocol.Packet` as constructed by `Packet.__init__`: the flags
byte is derived from the `ack` argument (`FLAG_ACK` if ack else 0), and
`length` is derived from the payload, so only the three constructor
arguments are state. -/
structure Packet where
  seq_num : Nat
  ack : Bool
  payload : List Nat
deriving DecidableEq

/-- The wire bytes written by `Packet.pack` for header fields
`(seq, flags)` and a payload: header-without-checksum, then the CRC32
over header-without-checksum ++ payload, then the payload. -/
def packetBytes (seq flags : Nat) (payload : List Nat) : List Nat :=
  (be4 seq ++ [flags] ++ be2 payload.length)
    ++ be4 (crc32 ((be4 seq ++ [flags] ++ be2 payload.length) ++ payload))
    ++ payload

/-- `Packet.pack`.  `struct.pack` raises `struct.error` when a field is
out of range for its format code (`!I` needs `seq < 2^32`, `!H` needs
`length < 2^16`); that failure is modelled by `none`.  No payload-size
check beyond the 16-bit length field exists in the source. -/
def Packet.pack (p : Packet) : Option (List Nat) :=
  if p.seq_num < 4294967296 ∧ p.payload.length < 65536 then
    some (packetBytes p.seq_num (if p.ack then FLAG_ACK else 0) p.payload)
  else none

/-- `Packet.unpack`: a buffer shorter than `HEADER_SIZE` (11 bytes)
raises `ValueError`, modelled by `none`; otherwise the header fields are
parsed, the payload is sliced as `buf[HEADER_SIZE : HEADER_SIZE+length]`
(Python slicing truncates at the end of the buffer, as `List.take`
does), the CRC is recomputed over the re-packed
header-without-checksum ++ payload, and the packet is returned together
with the comparison against the stored checksum. -/
def Packet.unpack (buf : List Nat) : Option (Packet × Bool) :=
  match buf with
  | a :: b :: c :: d :: f :: l1 :: l2 :: k1 :: k2 :: k3 :: k4 :: rest =>
    let seq := from4 a b c d
    let len := from2 l1 l2
    let chk := from4 k1 k2 k3 k4
    let payload := rest.take len
    let good := crc32 ((be4 seq ++ [f] ++ be2 len) ++ payload) == chk
    some (⟨seq, (f &&& FLAG_ACK) != 0, payload⟩, good)
  | _ => none

/-! ## Emulator byte corruption, from `emulator.py` -/

/-- Flip all eight bits of the byte at position `i` (XOR 0xFF), the
transform `corrupt` applies at its randomly drawn index. -/
def flipAt (l : List Nat) (i : Nat) : List Nat :=
  l.set i (l.getD i 0 ^^^ 0xFF)

/-- `corrupt` from `emulator.py`, with the randomly drawn index `i`
(`random.randrange(len(data))`) made an explicit argument: empty data is
returned unchanged, otherwise the byte at `i` is XORed with 0xFF. -/
def corrupt (data : List Nat) (i : Nat) : List Nat :=
  if data.isEmpty then data else flipAt data i

/-! ## Receiver state machine, from `rdt.py` (`RDTSession` receiver side)

`recv_buf` (a Python dict keyed by seq) becomes an association list
queried through `List.lookup`; `app_queue` (a deque appended on the
right) becomes a list appended on the right. -/

/-- The receiver fields of `RDTSession.__init__`. -/
structure RecvState where
  expected : Nat
  recv_buf : List (Nat × List Nat)
  app_queue : List (List Nat)
deriving DecidableEq

/-- The in-order flush loop of `_on_data`:
`while self.expected in self.recv_buf: pop it, append its payload to
app_queue, increment expected`. -/
def drain (e : Nat) (buf : List (Nat × List Nat)) (q : List (List Nat)) :
    Nat × List (Nat × List Nat) × List (List Nat) :=
  match _h : buf.lookup e with
  | some piece => drain (e + 1) (buf.filter fun p => p.1 != e) (q ++ [piece])
  | none => (e, buf, q)
termination_by buf.length
decreasing_by
  have hex : ∃ p ∈ buf, e == p.1 := by
    have h1 := List.lookup_isSome_iff (l := buf) (k := e)
    rw [_h] at h1
    simpa using h1
  obtain ⟨p, hp, hpe⟩ := hex
  have hpe' : p.1 = e := (eq_of_beq hpe).symm
  have hsub : List.Sublist (buf.filter fun q => q.1 != e) buf := List.filter_sublist buf
  have hle := hsub.length_le
  have hne : (buf.filter fun q => q.1 != e) ≠ buf := by
    intro hc
    have hmem : p ∈ buf.filter fun q => q.1 != e := by rw [hc]; exact hp
    have := (List.mem_filter.mp hmem).2
    simp [hpe'] at this
  have hlt : (buf.filter fun q => q.1 != e).length ≠ buf.length :=
    fun hl => hne (hsub.eq_of_length hl)
  omega

/-- `RDTSession._on_data`.  The first component is the list of ACK seqs
emitted (exactly one, emitted before any duplicate filtering); the
second is the updated receiver state. -/
def onData (st : RecvState) (seq : Nat) (payload : List Nat) :
    List Nat × RecvState :=
  ([seq],
    if seq < st.expected then st
    else if (st.recv_buf.lookup seq).isSome then st
    else
      let r := drain st.expected ((seq, payload) :: st.recv_buf) st.app_queue
      ⟨r.1, r.2.1, r.2.2⟩)

/-- Feeding a list of DATA packets `(seq, payload)` through `_on_data`
one after the other, keeping only the state. -/
def processData (st : RecvState) (pkts : List (Nat × List Nat)) : RecvState :=
  pkts.foldl (fun s p => (onData s p.1 p.2).2) st

/-- Same as `processData` but also collecting every ACK emitted. -/
def processDataAcks (st : RecvState) (pkts : List (Nat × List Nat)) :
    List Nat × RecvState :=
  pkts.foldl
    (fun acc p =>
      let r := onData acc.2 p.1 p.2
      (acc.1 ++ r.1, r.2))
    ([], st)

/-- The fresh receiver state of `RDTSession.__init__`:
`expected = 0`, empty `recv_buf`, empty `app_queue`. -/
def initRecv : RecvState := ⟨0, [], []⟩

/-! ## Sender state machine, from `rdt.py` (`RDTSession` sender side)

`sent` (dict seq ↦ (packet bytes, last send time)) becomes an
association list; `acked` (a Python set) a `Finset Nat`; monotonic time
an abstract `Nat`. -/

/-- The sender fields of `RDTSession.__init__`. -/
structure SenderState where
  next_seq : Nat
  sent : List (Nat × (List Nat × Nat))
  acked : Finset Nat
deriving DecidableEq

/-- `len([s for s in self.sent if s not in self.acked])` in
`RDTSession.send`: the number of in-flight (sent, un-ACKed) packets. -/
def inflight (st : SenderState) : Nat :=
  (st.sent.filter fun p => decide (p.1 ∉ st.acked)).length

/-- One iteration of the per-chunk body of `RDTSession.send` after its
window wait: allocate `seq = next_seq`, advance `next_seq`, record
`sent[seq] = (pkt_bytes, now)`. -/
def sendChunk (st : SenderState) (pktBytes : List Nat) (t : Nat) : SenderState :=
  { next_seq := st.next_seq + 1
    sent := (st.next_seq, (pktBytes, t)) :: st.sent
    acked := st.acked }

/-- `RDTSession._on_ack`: if the seq is in `sent`, add it to `acked`
and delete it from `sent`; otherwise ignore. -/
def onAckSender (st : SenderState) (a : Nat) : SenderState :=
  if (st.sent.lookup a).isSome then
    { st with
        acked := insert a st.acked
        sent := st.sent.filter fun p => p.1 != a }
  else st

/-- The timer refresh of the retransmission sweep in `_retx_loop`:
`self.sent[seq] = (pkt_bytes, now())` for a seq found in `sent`
(keeping the recorded bytes, restarting the timer); a seq no longer in
`sent` is skipped. -/
def retxRefresh (st : SenderState) (a : Nat) (t : Nat) : SenderState :=
  match st.sent.lookup a with
  | some (bytes, _) =>
      { st with sent := st.sent.map fun p => if p.1 = a then (a, (bytes, t)) else p }
  | none => st

/-- The sender states reachable from the fresh state of
`RDTSession.__init__` by the operations that touch sender state:
`send`'s guarded seq-allocation-and-record step (the guard is the
window wait `inflight < window`), `_on_ack`, and the retransmission
sweep's timer refresh. -/
inductive ReachSender (w : Nat) : SenderState → Prop
  | init : ReachSender w ⟨0, [], ∅⟩
  | send (st : SenderState) (pktBytes : List Nat) (t : Nat) :
      ReachSender w st → inflight st < w → ReachSender w (sendChunk st pktBytes t)
  | ack (st : SenderState) (a : Nat) :
      ReachSender w st → ReachSender w (onAckSender st a)
  | retx (st : SenderState) (a : Nat) (t : Nat) :
      ReachSender w st → ReachSender w (retxRefresh st a t)

/-- The chunking-and-sequencing skeleton of `RDTSession.send`: split
`data` into successive slices of at most `MAX_PAYLOAD` bytes
(`data[offset : offset + MAX_PAYLOAD]`, the offset advancing by the
slice length) and pair each with the sequence number `next_seq++`
allocated for it.  Returns the final `next_seq` and the `(seq, chunk)`
pairs in send order.  The window wait, socket send, timer record and
`SEND_GAP` sleep of the loop body do not affect which chunks are formed
or which seqs they get, and are omitted here. -/
def sendChunks (next : Nat) (data : List Nat) : Nat × List (Nat × List Nat) :=
  if data.isEmpty then (next, [])
  else
    let r := sendChunks (next + 1) (data.drop MAX_PAYLOAD)
    (r.1, (next, data.take MAX_PAYLOAD) :: r.2)
termination_by data.length
decreasing_by
  rename_i h
  have : data.length ≠ 0 := by
    simpa [List.isEmpty_iff_length_eq_zero] using h
  simp [MAX_PAYLOAD]
  omega

/-! ## Demultiplexing, from `RDTSession.handle_raw` -/

/-- A whole `RDTSession`: sender state plus receiver state. -/
structure Session where
  sender : SenderState
  receiver : RecvState
deriving DecidableEq

/-- `RDTSession.handle_raw`: unpack (a malformed buffer is dropped),
drop on CRC mismatch, then dispatch on bit 0 of the flags byte:
`_on_ack` when set, `_on_data` otherwise.  Returns the emitted ACK seqs
and the new session state. -/
def handleRaw (s : Session) (raw : List Nat) : List Nat × Session :=
  match Packet.unpack raw with
  | none => ([], s)
  | some (pkt, ok) =>
    if !ok then ([], s)
    else if pkt.ack then ([], { s with sender := onAckSender s.sender pkt.seq_num })
    else
      let r := onData s.receiver pkt.seq_num pkt.payload
      (r.1, { s with receiver := r.2 })

/-! ## CRC32 lemmas: GF(2)-linearity and single-burst sensitivity -/

theorem xor_left_comm (a b c : Nat) : a ^^^ (b ^^^ c) = b ^^^ (a ^^^ c) := by
  rw [← Nat.xor_assoc, Nat.xor_comm a b, Nat.xor_assoc]

theorem xor_xor_self (a b : Nat) : a ^^^ (a ^^^ b) = b := by
  rw [← Nat.xor_assoc, Nat.xor_self, Nat.zero_xor]

/-- One CRC bit-round is GF(2)-linear. -/
theorem crcRound_xor (x y : Nat) : crcRound (x ^^^ y) = crcRound x ^^^ crcRound y := by
  have hsh : (x ^^^ y) >>> 1 = (x >>> 1) ^^^ (y >>> 1) := by
    simp only [Nat.shiftRight_one]
    exact Nat.xor_div_two
  have hm : (x ^^^ y) % 2 = (x % 2 + y % 2) % 2 := by
    rw [Nat.xor_mod_two_eq, Nat.add_mod]
  unfold crcRound
  rcases Nat.mod_two_eq_zero_or_one x with hx | hx <;>
    rcases Nat.mod_two_eq_zero_or_one y with hy | hy <;>
      simp [hx, hy, hm, hsh, Nat.xor_assoc, Nat.xor_comm, xor_left_comm,
        Nat.xor_self, xor_xor_self]

/-- Iterated CRC bit-rounds are GF(2)-linear. -/
theorem crcRound_iterate_xor (n x y : Nat) :
    crcRound^[n] (x ^^^ y) = crcRound^[n] x ^^^ crcRound^[n] y := by
  induction n generalizing x y with
  | zero => simp
  | succ n ih =>
      simp only [Function.iterate_succ_apply, crcRound_xor]
      exact ih _ _

/-- The CRC byte-update is jointly GF(2)-linear in register and byte. -/
theorem crcUpdate_xor (c₁ c₂ b₁ b₂ : Nat) :
    crcUpdate (c₁ ^^^ c₂) (b₁ ^^^ b₂) = crcUpdate c₁ b₁ ^^^ crcUpdate c₂ b₂ := by
  unfold crcUpdate
  rw [← crcRound_iterate_xor]
  congr 1
  simp [Nat.xor_assoc, Nat.xor_comm, xor_left_comm]

/-- Folding the CRC update over a pointwise XOR of two equally long byte
lists splits into the XOR of the two folds. -/
theorem crcFold_xor :
    ∀ (bs es : List Nat) (c d : Nat), bs.length = es.length →
      (List.zipWith (· ^^^ ·) bs es).foldl crcUpdate (c ^^^ d) =
        bs.foldl crcUpdate c ^^^ es.foldl crcUpdate d := by
  intro bs
  induction bs with
  | nil =>
      intro es c d h
      cases es with
      | nil => simp
      | cons x xs => simp at h
  | cons b bs ih =>
      intro es c d h
      cases es with
      | nil => simp at h
      | cons x xs =>
          simp only [List.zipWith_cons_cons, List.foldl_cons]
          rw [crcUpdate_xor]
          exact ih xs _ _ (by simpa using h)

theorem crcRound_zero : crcRound 0 = 0 := by decide

theorem crcUpdate_zero_zero : crcUpdate 0 0 = 0 := by decide

/-- A nonzero CRC register below `2^32` stays nonzero and below `2^32`
through one bit-round (the reversed polynomial has bit 31 set, so the
feedback cannot cancel the shifted register). -/
theorem crcRound_ne_zero {r : Nat} (h0 : r ≠ 0) (hlt : r < 4294967296) :
    crcRound r ≠ 0 ∧ crcRound r < 4294967296 := by
  unfold crcRound
  rcases Nat.mod_two_eq_zero_or_one r with hr | hr
  · simp only [hr, Nat.shiftRight_one]
    norm_num
    constructor
    · omega
    · omega
  · simp only [hr, Nat.shiftRight_one]
    norm_num
    have hhalf : r / 2 < 2147483648 := by omega
    constructor
    · intro hzero
      have : r / 2 = 0xEDB88320 := by
        have h1 := congrArg (· ^^^ 0xEDB88320) hzero
        simpa [Nat.xor_assoc] using h1
      omega
    · exact Nat.xor_lt_two_pow (n := 32) (by omega) (by norm_num)

theorem crcRound_iterate_ne_zero {r : Nat} (n : Nat) (h0 : r ≠ 0)
    (hlt : r < 4294967296) :
    crcRound^[n] r ≠ 0 ∧ crcRound^[n] r < 4294967296 := by
  induction n generalizing r with
  | zero => exact ⟨h0, hlt⟩
  | succ n ih =>
      rw [Function.iterate_succ_apply]
      obtain ⟨h1, h2⟩ := crcRound_ne_zero h0 hlt
      exact ih h1 h2

/-- Folding zero bytes into a nonzero register keeps it nonzero. -/
theorem crcFold_zeroBytes_ne_zero {v : Nat} (j : Nat) (h0 : v ≠ 0)
    (hlt : v < 4294967296) :
    (List.replicate j 0).foldl crcUpdate v ≠ 0 ∧
      (List.replicate j 0).foldl crcUpdate v < 4294967296 := by
  induction j generalizing v with
  | zero => exact ⟨h0, hlt⟩
  | succ j ih =>
      simp only [List.replicate_succ, List.foldl_cons]
      have hv : crcUpdate v 0 = crcRound^[8] v := by
        unfold crcUpdate
        rw [Nat.xor_zero]
      rw [hv]
      obtain ⟨h1, h2⟩ := crcRound_iterate_ne_zero 8 h0 hlt
      exact ih h1 h2

/-- The register contribution of a lone `0xFF` burst byte. -/
theorem crcUpdate_ff_ne_zero :
    crcUpdate 0 255 ≠ 0 ∧ crcUpdate 0 255 < 4294967296 := by
  constructor <;> decide

/-- Folding the CRC update starting from register 0 over the error
vector `0^i ++ [0xFF] ++ 0^j` yields a nonzero value below `2^32`. -/
theorem crcFold_errVec_ne_zero (i j : Nat) :
    (List.replicate i 0 ++ 255 :: List.replicate j 0).foldl crcUpdate 0 ≠ 0 ∧
      (List.replicate i 0 ++ 255 :: List.replicate j 0).foldl crcUpdate 0 < 4294967296 := by
  have hzeros : (List.replicate i 0).foldl crcUpdate 0 = 0 := by
    induction i with
    | zero => simp
    | succ i ih => simpa [List.replicate_succ, crcUpdate_zero_zero] using ih
  rw [List.foldl_append, hzeros, List.foldl_cons]
  exact crcFold_zeroBytes_ne_zero j crcUpdate_ff_ne_zero.1 crcUpdate_ff_ne_zero.2

theorem zipWith_xor_replicate_zero (l : List Nat) :
    List.zipWith (· ^^^ ·) l (List.replicate l.length 0) = l := by
  induction l with
  | nil => simp
  | cons a as ih => simp [List.replicate_succ, ih]

/-- XOR-ing the byte at position `i` with 0xFF is the pointwise XOR with
the error vector `0^i ++ [0xFF] ++ 0^(len-i-1)`. -/
theorem flipAt_eq_zipWith :
    ∀ (m : List Nat) (i : Nat), i < m.length →
      flipAt m i =
        List.zipWith (· ^^^ ·) m
          (List.replicate i 0 ++ 255 :: List.replicate (m.length - i - 1) 0) := by
  intro m
  induction m with
  | nil => intro i hi; simp at hi
  | cons a as ih =>
      intro i hi
      cases i with
      | zero =>
          simp [flipAt, zipWith_xor_replicate_zero]
      | succ i =>
          have hi' : i < as.length := by simpa using hi
          have := ih i hi'
          simp only [flipAt] at this ⊢
          simp only [List.replicate_succ, List.cons_append, List.zipWith_cons_cons,
            List.set_cons_succ, List.getD_cons_succ, Nat.xor_zero,
            List.length_cons]
          congr 1
          rw [show as.length + 1 - (i + 1) - 1 = as.length - i - 1 by omega]
          exact this

/-- Burst sensitivity of the checksum: flipping all eight bits of any
single byte of a message changes its CRC32. -/
theorem crc32_flipAt_ne (m : List Nat) (i : Nat) (hi : i < m.length) :
    crc32 (flipAt m i) ≠ crc32 m := by
  set e : List Nat := List.replicate i 0 ++ 255 :: List.replicate (m.length - i - 1) 0 with he
  have hlen : m.length = e.length := by
    simp [he, List.length_append, List.length_replicate]
    omega
  have hflip : flipAt m i = List.zipWith (· ^^^ ·) m e := flipAt_eq_zipWith m i hi
  have hsplit :
      (List.zipWith (· ^^^ ·) m e).foldl crcUpdate 4294967295 =
        m.foldl crcUpdate 4294967295 ^^^ e.foldl crcUpdate 0 := by
    have := crcFold_xor m e 4294967295 0 hlen
    simpa using this
  obtain ⟨ht0, htlt⟩ := crcFold_errVec_ne_zero i (m.length - i - 1)
  intro hcontra
  unfold crc32 at hcontra
  rw [hflip, hsplit] at hcontra
  set X := m.foldl crcUpdate 4294967295 with hX
  set t := e.foldl crcUpdate 0 with hti
  have hre : (X ^^^ t) ^^^ 4294967295 = (X ^^^ 4294967295) ^^^ t := by
    simp [Nat.xor_assoc, Nat.xor_comm, xor_left_comm]
  rw [hre] at hcontra
  have hmask : (4294967295 : Nat) = 2 ^ 32 - 1 := by norm_num
  rw [hmask, Nat.and_xor_distrib_right,
    Nat.and_pow_two_sub_one_of_lt_two_pow (x := t) (by omega)] at hcontra
  set A := (X ^^^ 4294967295) &&& (2 ^ 32 - 1) with hA
  have : t = 0 := by
    have h1 : A ^^^ (A ^^^ t) = A ^^^ A := congrArg (A ^^^ ·) hcontra
    simpa [xor_xor_self, Nat.xor_self] using h1
  exact ht0 this

/-! ## Field codec roundtrips -/

theorem from4_be4 {n : Nat} (h : n < 4294967296) :
    from4 (n / 16777216 % 256) (n / 65536 % 256) (n / 256 % 256) (n % 256) = n := by
  unfold from4
  omega

theorem from2_be2 {n : Nat} (h : n < 65536) :
    from2 (n / 256 % 256) (n % 256) = n := by
  unfold from2
  omega

theorem crc32_lt (bs : List Nat) : crc32 bs < 4294967296 := by
  unfold crc32
  have := Nat.and_le_right (n := bs.foldl crcUpdate 4294967295 ^^^ 4294967295)
    (m := 4294967295)
  omega

/-- `Packet.unpack` inverts the wire image `packetBytes` for any header
field values in range, recovering the fields, the full payload, and a
passing checksum; the parsed ACK bit is bit 0 of the flags byte. -/
theorem unpack_packetBytes (seq flags : Nat) (payload : List Nat)
    (h1 : seq < 4294967296) (h3 : payload.length < 65536) :
    Packet.unpack (packetBytes seq flags payload) =
      some (⟨seq, (flags &&& 1) != 0, payload⟩, true) := by
  have hs : from4 (seq / 16777216 % 256) (seq / 65536 % 256) (seq / 256 % 256)
      (seq % 256) = seq := from4_be4 h1
  have hl : from2 (payload.length / 256 % 256) (payload.length % 256) =
      payload.length := from2_be2 h3
  have hcl := crc32_lt ((be4 seq ++ [flags] ++ be2 payload.length) ++ payload)
  set C := crc32 ((be4 seq ++ [flags] ++ be2 payload.length) ++ payload) with hC
  have hc : from4 (C / 16777216 % 256) (C / 65536 % 256) (C / 256 % 256)
      (C % 256) = C := from4_be4 hcl
  simp only [packetBytes, be4, be2, List.cons_append, List.nil_append, ← hC,
    List.append_assoc]
  simp only [Packet.unpack, hs, hl, hc, List.take_length, FLAG_ACK]
  simp [hs, hl, be4, be2]
  exact (from4_be4 (crc32_lt _)).symm

/-! ## C1: codec round-trip -/

/-- C1: for every sequence number below `2^32`, every ack flag and every
payload of length at most `MAX_PAYLOAD`, packing succeeds and unpacking
the packed bytes returns a packet with the same `seq_num`, ACK flag and
payload, together with `checksum_ok = true`. -/
theorem pack_unpack_roundtrip (seq : Nat) (ack : Bool) (payload : List Nat)
    (hseq : seq < 4294967296) (hlen : payload.length ≤ MAX_PAYLOAD) :
    ∃ buf, Packet.pack ⟨seq, ack, payload⟩ = some buf ∧
      Packet.unpack buf = some (⟨seq, ack, payload⟩, true) := by
  have h3 : payload.length < 65536 := by
    have hm : MAX_PAYLOAD = 32 := rfl
    omega
  refine ⟨packetBytes seq (if ack then FLAG_ACK else 0) payload, ?_, ?_⟩
  · simp [Packet.pack, hseq, h3]
  · cases ack
    · simpa using unpack_packetBytes seq 0 payload hseq h3
    · simpa [FLAG_ACK] using unpack_packetBytes seq 1 payload hseq h3

/-- Witness for C1 at `seq = 3`, `ack = true`, `payload = [1, 2]`. -/
theorem pack_unpack_roundtrip_witness :
    ∃ buf, Packet.pack ⟨3, true, [1, 2]⟩ = some buf ∧
      Packet.unpack buf = some (⟨3, true, [1, 2]⟩, true) :=
  pack_unpack_roundtrip 3 true [1, 2] (by norm_num) (by decide)

/-! ## C6: short and truncated buffers -/

/-- C6 counterexample: an 11-byte buffer that declares `length = 1`
(so it is shorter than `HEADER_SIZE + length = 12`) on which
`Packet.unpack` does not fail and even reports `checksum_ok = true`:
the payload slice is silently truncated to the bytes available.  This
refutes the claim that decode fails on every buffer shorter than
`HEADER_SIZE` plus the declared length. -/
theorem unpack_truncated_counterexample :
    Packet.unpack [0, 0, 0, 0, 0, 0, 1, 234, 107, 239, 232] =
      some (⟨0, false, []⟩, true) ∧
    List.length [0, 0, 0, 0, 0, 0, 1, 234, 107, 239, 232] <
      HEADER_SIZE + 1 := by
  constructor
  · set_option maxRecDepth 20000 in decide
  · decide

/-- C6 amended: `Packet.unpack` fails (raises `ValueError`) exactly on
buffers shorter than `HEADER_SIZE` (11 bytes); on any buffer of at
least `HEADER_SIZE` bytes it succeeds — even when the buffer is shorter
than `HEADER_SIZE` plus the declared length field, in which case the
payload is truncated to the bytes available and the packet may even
come back with `checksum_ok = true` (see the counterexample). -/
theorem unpack_header_bound (buf : List Nat) :
    (buf.length < HEADER_SIZE → Packet.unpack buf = none) ∧
    (HEADER_SIZE ≤ buf.length → (Packet.unpack buf).isSome) := by
  rcases buf with _ | ⟨a, _ | ⟨b, _ | ⟨c, _ | ⟨d, _ | ⟨f, _ | ⟨l1, _ | ⟨l2,
    _ | ⟨k1, _ | ⟨k2, _ | ⟨k3, _ | ⟨k4, rest⟩⟩⟩⟩⟩⟩⟩⟩⟩⟩⟩ <;>
    constructor <;> intro h <;>
      first
        | rfl
        | (simp [Packet.unpack]; done)
        | (exfalso; simp [HEADER_SIZE] at h; try omega)

/-- Witness for C6 amended: a 3-byte buffer fails; an 11-byte buffer
succeeds. -/
theorem unpack_header_bound_witness :
    Packet.unpack [1, 2, 3] = none ∧
      (Packet.unpack [0, 0, 0, 0, 0, 0, 1, 234, 107, 239, 232]).isSome := by
  constructor
  · exact (unpack_header_bound [1, 2, 3]).1 (by decide)
  · exact (unpack_header_bound [0, 0, 0, 0, 0, 0, 1, 234, 107, 239, 232]).2
      (by decide)

/-! ## C7: oversized payloads are not rejected -/

/-- C7 counterexample: a packet whose payload is 33 bytes long — one
more than `MAX_PAYLOAD` — is packed without any failure: neither
`Packet.__init__` nor `Packet.pack` checks the payload against
`MAX_PAYLOAD`. -/
theorem pack_oversize_counterexample :
    (Packet.pack ⟨0, false, List.replicate 33 0⟩).isSome = true ∧
      MAX_PAYLOAD < (List.replicate 33 (0 : Nat)).length := by
  constructor
  · decide
  · decide

/-- C7 amended: `pack` never rejects a payload for exceeding
`MAX_PAYLOAD`; for every payload shorter than `2^16` bytes (the only
real limit, the 16-bit length field of `struct.pack("!H", ...)`) it
succeeds and emits wire bytes carrying the full payload after the
11-byte header.  `MAX_PAYLOAD` is a caller-side chunking contract only. -/
theorem pack_no_payload_check (seq : Nat) (ack : Bool) (payload : List Nat)
    (hseq : seq < 4294967296) (hlen : payload.length < 65536) :
    ∃ buf, Packet.pack ⟨seq, ack, payload⟩ = some buf ∧
      buf.length = HEADER_SIZE + payload.length ∧
      buf.drop HEADER_SIZE = payload := by
  refine ⟨packetBytes seq (if ack then FLAG_ACK else 0) payload, ?_, ?_, ?_⟩
  · simp [Packet.pack, hseq, hlen]
  · simp [packetBytes, be4, be2, HEADER_SIZE]
    omega
  · simp [packetBytes, be4, be2, HEADER_SIZE]

/-- Witness for C7 amended at a 33-byte payload. -/
theorem pack_no_payload_check_witness :
    ∃ buf, Packet.pack ⟨0, false, List.replicate 33 7⟩ = some buf ∧
      buf.length = HEADER_SIZE + (List.replicate 33 (7 : Nat)).length ∧
      buf.drop HEADER_SIZE = List.replicate 33 7 :=
  pack_no_payload_check 0 false (List.replicate 33 7) (by norm_num) (by decide)

/-! ## C9: the emulator corruption transform -/

theorem xor_ff_ne (n : Nat) : n ^^^ 255 ≠ n := by
  intro h
  have h1 : n ^^^ (n ^^^ 255) = n ^^^ n := congrArg (n ^^^ ·) h
  simp [xor_xor_self, Nat.xor_self] at h1

/-- C9: on a nonempty datagram, `corrupt` (at its randomly drawn
position `i < len`) keeps the length, XORs exactly the byte at `i` with
0xFF (hence changes it), and leaves every other position unchanged; the
empty datagram is returned as is. -/
theorem corrupt_spec (data : List Nat) (i : Nat) :
    corrupt ([] : List Nat) i = [] ∧
    (i < data.length →
      (corrupt data i).length = data.length ∧
      (corrupt data i).getD i 0 = data.getD i 0 ^^^ 255 ∧
      (corrupt data i).getD i 0 ≠ data.getD i 0 ∧
      ∀ j, j ≠ i → (corrupt data i).getD j 0 = data.getD j 0) := by
  constructor
  · rfl
  · intro hi
    have hne : data.isEmpty = false := by
      cases data with
      | nil => simp at hi
      | cons a as => simp
    have hcor : corrupt data i = data.set i (data.getD i 0 ^^^ 255) := by
      simp [corrupt, hne, flipAt]
    rw [hcor]
    have hset : (data.set i (data.getD i 0 ^^^ 255)).getD i 0 =
        data.getD i 0 ^^^ 255 := by
      rw [List.getD_eq_getElem?_getD, List.getElem?_set_self (by simpa using hi)]
      rfl
    refine ⟨by simp, hset, ?_, ?_⟩
    · rw [hset]
      exact xor_ff_ne _
    · intro j hj
      rw [List.getD_eq_getElem?_getD, List.getElem?_set_ne (by omega),
        ← List.getD_eq_getElem?_getD]

/-! ## C5 machinery: single-byte flips of a packed buffer -/

theorem xor_255_lt {a : Nat} (h : a < 256) : a ^^^ 255 < 256 :=
  Nat.xor_lt_two_pow (n := 8) (by omega) (by norm_num)

theorem be4_from4 {a b c d : Nat} (ha : a < 256) (hb : b < 256) (hc : c < 256)
    (hd : d < 256) : be4 (from4 a b c d) = [a, b, c, d] := by
  unfold be4 from4
  simp only [List.cons.injEq, and_true]
  refine ⟨?_, ?_, ?_, ?_⟩ <;> omega

theorem be2_from2 {a b : Nat} (ha : a < 256) (hb : b < 256) :
    be2 (from2 a b) = [a, b] := by
  unfold be2 from2
  simp only [List.cons.injEq, and_true]
  refine ⟨?_, ?_⟩ <;> omega

theorem flipAt_cons_zero (a : Nat) (l : List Nat) :
    flipAt (a :: l) 0 = (a ^^^ 255) :: l := by
  simp [flipAt]

theorem flipAt_cons_succ (a : Nat) (l : List Nat) (n : Nat) :
    flipAt (a :: l) (n + 1) = a :: flipAt l n := by
  simp [flipAt]

/-- `Packet.unpack` on an explicitly decomposed buffer, by definition. -/
theorem unpack_good_eq (a b c d f l1 l2 k1 k2 k3 k4 : Nat) (rest : List Nat) :
    Packet.unpack (a :: b :: c :: d :: f :: l1 :: l2 :: k1 :: k2 :: k3 :: k4 :: rest) =
      some (⟨from4 a b c d, (f &&& FLAG_ACK) != 0, rest.take (from2 l1 l2)⟩,
        crc32 ((be4 (from4 a b c d) ++ [f] ++ be2 (from2 l1 l2)) ++
          rest.take (from2 l1 l2)) == from4 k1 k2 k3 k4) := rfl

/-- Burst sensitivity, zipWith form: XOR-ing a message with the error
vector `0^i ++ [0xFF] ++ 0^j` changes its CRC32. -/
theorem crc32_zip_err_ne (m : List Nat) (i j : Nat) (hm : m.length = i + 1 + j) :
    crc32 (List.zipWith (· ^^^ ·) m
      (List.replicate i 0 ++ 255 :: List.replicate j 0)) ≠ crc32 m := by
  set e : List Nat := List.replicate i 0 ++ 255 :: List.replicate j 0 with he
  have hlen : m.length = e.length := by
    simp [he, List.length_append, List.length_replicate]
    omega
  have hsplit :
      (List.zipWith (· ^^^ ·) m e).foldl crcUpdate 4294967295 =
        m.foldl crcUpdate 4294967295 ^^^ e.foldl crcUpdate 0 := by
    have := crcFold_xor m e 4294967295 0 hlen
    simpa using this
  obtain ⟨ht0, htlt⟩ := crcFold_errVec_ne_zero i j
  intro hcontra
  unfold crc32 at hcontra
  rw [hsplit] at hcontra
  set X := m.foldl crcUpdate 4294967295 with hX
  set t := e.foldl crcUpdate 0 with hti
  have hre : (X ^^^ t) ^^^ 4294967295 = (X ^^^ 4294967295) ^^^ t := by
    simp [Nat.xor_assoc, Nat.xor_comm, xor_left_comm]
  rw [hre] at hcontra
  have hmask : (4294967295 : Nat) = 2 ^ 32 - 1 := by norm_num
  rw [hmask, Nat.and_xor_distrib_right,
    Nat.and_pow_two_sub_one_of_lt_two_pow (x := t) (by omega)] at hcontra
  set A := (X ^^^ 4294967295) &&& (2 ^ 32 - 1) with hA
  have : t = 0 := by
    have h1 : A ^^^ (A ^^^ t) = A ^^^ A := congrArg (A ^^^ ·) hcontra
    simpa [xor_xor_self, Nat.xor_self] using h1
  exact ht0 this

theorem from2_zero (x : Nat) : from2 0 x = x := by
  simp [from2]

set_option maxHeartbeats 1600000 in
/-- Flipping any single byte of a well-formed wire buffer (header bytes
abstract, checksum bytes the big-endian image of the CRC over the
header-without-checksum and payload) makes `Packet.unpack` report
`checksum_ok = false`. -/
theorem unpack_flip_generic (s0 s1 s2 s3 f l2v : Nat) (payload : List Nat)
    (c0 c1 c2 c3 : Nat) (i : Nat)
    (hs0 : s0 < 256) (hs1 : s1 < 256) (hs2 : s2 < 256) (hs3 : s3 < 256)
    (hl2 : l2v = payload.length) (hlen : payload.length ≤ 32)
    (hc : from4 c0 c1 c2 c3 =
      crc32 (s0 :: s1 :: s2 :: s3 :: f :: 0 :: l2v :: payload))
    (hi : i < 11 + payload.length) :
    ∃ pkt, Packet.unpack (flipAt
      (s0 :: s1 :: s2 :: s3 :: f :: 0 :: l2v :: c0 :: c1 :: c2 :: c3 :: payload)
      i) = some (pkt, false) := by
  have hl2lt : l2v < 256 := by omega
  have htake : payload.take l2v = payload := by
    rw [hl2]
    exact List.take_length payload
  have hbe2l : be2 l2v = [0, l2v] := by
    simp only [be2, List.cons.injEq, and_true]
    constructor <;> omega
  have hbe4s : be4 (from4 s0 s1 s2 s3) = [s0, s1, s2, s3] :=
    be4_from4 hs0 hs1 hs2 hs3
  rcases i with _ | _ | _ | _ | _ | _ | _ | _ | _ | _ | _ | k
  -- i = 0 : first seq byte
  · simp only [flipAt_cons_zero]
    rw [unpack_good_eq]
    simp only [Option.some.injEq, Prod.mk.injEq]
    refine ⟨_, rfl, ?_⟩
    rw [beq_eq_false_iff_ne]
    have hz := crc32_zip_err_ne
      (s0 :: s1 :: s2 :: s3 :: f :: 0 :: l2v :: payload) 0
      (6 + payload.length) (by simp; omega)
    rw [show List.replicate (6 + payload.length) (0 : Nat) =
        [0, 0, 0, 0, 0, 0] ++ List.replicate payload.length 0 from
      List.replicate_add 6 payload.length 0] at hz
    simp only [List.replicate, List.nil_append, List.cons_append,
      List.zipWith_cons_cons, Nat.xor_zero, Nat.zero_xor,
      zipWith_xor_replicate_zero] at hz
    rw [← hc] at hz
    simpa [be4_from4 (xor_255_lt hs0) hs1 hs2 hs3, hbe2l, from2_zero, htake, hc]
      using hz
  -- i = 1
  · simp only [flipAt_cons_succ, flipAt_cons_zero]
    rw [unpack_good_eq]
    simp only [Option.some.injEq, Prod.mk.injEq]
    refine ⟨_, rfl, ?_⟩
    rw [beq_eq_false_iff_ne]
    have hz := crc32_zip_err_ne
      (s0 :: s1 :: s2 :: s3 :: f :: 0 :: l2v :: payload) 1
      (5 + payload.length) (by simp; omega)
    rw [show List.replicate (5 + payload.length) (0 : Nat) =
        [0, 0, 0, 0, 0] ++ List.replicate payload.length 0 from
      List.replicate_add 5 payload.length 0] at hz
    simp only [List.replicate, List.nil_append, List.cons_append,
      List.zipWith_cons_cons, Nat.xor_zero, Nat.zero_xor,
      zipWith_xor_replicate_zero] at hz
    rw [← hc] at hz
    simpa [be4_from4 hs0 (xor_255_lt hs1) hs2 hs3, hbe2l, from2_zero, htake, hc]
      using hz
  -- i = 2
  · simp only [flipAt_cons_succ, flipAt_cons_zero]
    rw [unpack_good_eq]
    simp only [Option.some.injEq, Prod.mk.injEq]
    refine ⟨_, rfl, ?_⟩
    rw [beq_eq_false_iff_ne]
    have hz := crc32_zip_err_ne
      (s0 :: s1 :: s2 :: s3 :: f :: 0 :: l2v :: payload) 2
      (4 + payload.length) (by simp; omega)
    rw [show List.replicate (4 + payload.length) (0 : Nat) =
        [0, 0, 0, 0] ++ List.replicate payload.length 0 from
      List.replicate_add 4 payload.length 0] at hz
    simp only [List.replicate, List.nil_append, List.cons_append,
      List.zipWith_cons_cons, Nat.xor_zero, Nat.zero_xor,
      zipWith_xor_replicate_zero] at hz
    rw [← hc] at hz
    simpa [be4_from4 hs0 hs1 (xor_255_lt hs2) hs3, hbe2l, from2_zero, htake, hc]
      using hz
  -- i = 3
  · simp only [flipAt_cons_succ, flipAt_cons_zero]
    rw [unpack_good_eq]
    simp only [Option.some.injEq, Prod.mk.injEq]
    refine ⟨_, rfl, ?_⟩
    rw [beq_eq_false_iff_ne]
    have hz := crc32_zip_err_ne
      (s0 :: s1 :: s2 :: s3 :: f :: 0 :: l2v :: payload) 3
      (3 + payload.length) (by simp; omega)
    rw [show List.replicate (3 + payload.length) (0 : Nat) =
        [0, 0, 0] ++ List.replicate payload.length 0 from
      List.replicate_add 3 payload.length 0] at hz
    simp only [List.replicate, List.nil_append, List.cons_append,
      List.zipWith_cons_cons, Nat.xor_zero, Nat.zero_xor,
      zipWith_xor_replicate_zero] at hz
    rw [← hc] at hz
    simpa [be4_from4 hs0 hs1 hs2 (xor_255_lt hs3), hbe2l, from2_zero, htake, hc]
      using hz
  -- i = 4 : flags byte
  · simp only [flipAt_cons_succ, flipAt_cons_zero]
    rw [unpack_good_eq]
    simp only [Option.some.injEq, Prod.mk.injEq]
    refine ⟨_, rfl, ?_⟩
    rw [beq_eq_false_iff_ne]
    have hz := crc32_zip_err_ne
      (s0 :: s1 :: s2 :: s3 :: f :: 0 :: l2v :: payload) 4
      (2 + payload.length) (by simp; omega)
    rw [show List.replicate (2 + payload.length) (0 : Nat) =
        [0, 0] ++ List.replicate payload.length 0 from
      List.replicate_add 2 payload.length 0] at hz
    simp only [List.replicate, List.nil_append, List.cons_append,
      List.zipWith_cons_cons, Nat.xor_zero, Nat.zero_xor,
      zipWith_xor_replicate_zero] at hz
    rw [← hc] at hz
    simpa [hbe4s, hbe2l, from2_zero, htake, hc] using hz
  -- i = 5 : high length byte
  · simp only [flipAt_cons_succ, flipAt_cons_zero]
    rw [unpack_good_eq]
    simp only [Option.some.injEq, Prod.mk.injEq]
    refine ⟨_, rfl, ?_⟩
    rw [beq_eq_false_iff_ne]
    have htake5 : payload.take (from2 255 l2v) = payload := by
      apply List.take_of_length_le
      simp only [from2]
      omega
    have hbe25 : be2 (from2 255 l2v) = [255, l2v] :=
      be2_from2 (by norm_num) hl2lt
    have hz := crc32_zip_err_ne
      (s0 :: s1 :: s2 :: s3 :: f :: 0 :: l2v :: payload) 5
      (1 + payload.length) (by simp; omega)
    rw [show List.replicate (1 + payload.length) (0 : Nat) =
        [0] ++ List.replicate payload.length 0 from
      List.replicate_add 1 payload.length 0] at hz
    simp only [List.replicate, List.nil_append, List.cons_append,
      List.zipWith_cons_cons, Nat.xor_zero, Nat.zero_xor,
      zipWith_xor_replicate_zero] at hz
    rw [← hc] at hz
    simpa [hbe4s, hbe25, htake5, hc] using hz
  -- i = 6 : low length byte
  · simp only [flipAt_cons_succ, flipAt_cons_zero]
    rw [unpack_good_eq]
    simp only [Option.some.injEq, Prod.mk.injEq]
    refine ⟨_, rfl, ?_⟩
    rw [beq_eq_false_iff_ne]
    have hx : l2v ^^^ 255 = 255 - l2v := by
      have hdec : ∀ n, n < 33 → n ^^^ 255 = 255 - n := by decide
      exact hdec l2v (by omega)
    have htake6 : payload.take (from2 0 (l2v ^^^ 255)) = payload := by
      apply List.take_of_length_le
      rw [from2_zero, hx]
      omega
    have hbe26 : be2 (from2 0 (l2v ^^^ 255)) = [0, l2v ^^^ 255] := by
      rw [from2_zero, hx]
      simp only [be2, List.cons.injEq, and_true]
      constructor <;> omega
    have hz := crc32_zip_err_ne
      (s0 :: s1 :: s2 :: s3 :: f :: 0 :: l2v :: payload) 6
      payload.length (by simp; omega)
    rw [show List.replicate payload.length (0 : Nat) =
        [] ++ List.replicate payload.length 0 from rfl] at hz
    simp only [List.replicate, List.nil_append, List.cons_append,
      List.zipWith_cons_cons, Nat.xor_zero, Nat.zero_xor,
      zipWith_xor_replicate_zero] at hz
    rw [← hc] at hz
    simpa [hbe4s, hbe26, htake6, hc] using hz
  -- i = 7, 8, 9, 10 : checksum bytes
  · simp only [flipAt_cons_succ, flipAt_cons_zero]
    rw [unpack_good_eq]
    simp only [Option.some.injEq, Prod.mk.injEq]
    refine ⟨_, rfl, ?_⟩
    rw [beq_eq_false_iff_ne]
    simp only [hbe4s, hbe2l, from2_zero, htake, List.cons_append,
      List.nil_append]
    rw [← hc]
    intro heq
    unfold from4 at heq
    exact xor_ff_ne c0 (by omega)
  · simp only [flipAt_cons_succ, flipAt_cons_zero]
    rw [unpack_good_eq]
    simp only [Option.some.injEq, Prod.mk.injEq]
    refine ⟨_, rfl, ?_⟩
    rw [beq_eq_false_iff_ne]
    simp only [hbe4s, hbe2l, from2_zero, htake, List.cons_append,
      List.nil_append]
    rw [← hc]
    intro heq
    unfold from4 at heq
    exact xor_ff_ne c1 (by omega)
  · simp only [flipAt_cons_succ, flipAt_cons_zero]
    rw [unpack_good_eq]
    simp only [Option.some.injEq, Prod.mk.injEq]
    refine ⟨_, rfl, ?_⟩
    rw [beq_eq_false_iff_ne]
    simp only [hbe4s, hbe2l, from2_zero, htake, List.cons_append,
      List.nil_append]
    rw [← hc]
    intro heq
    unfold from4 at heq
    exact xor_ff_ne c2 (by omega)
  · simp only [flipAt_cons_succ, flipAt_cons_zero]
    rw [unpack_good_eq]
    simp only [Option.some.injEq, Prod.mk.injEq]
    refine ⟨_, rfl, ?_⟩
    rw [beq_eq_false_iff_ne]
    simp only [hbe4s, hbe2l, from2_zero, htake, List.cons_append,
      List.nil_append]
    rw [← hc]
    intro heq
    unfold from4 at heq
    exact xor_ff_ne c3 (by omega)
  -- i = 11 + k : payload byte k
  · have hk : k < payload.length := by omega
    simp only [flipAt_cons_succ]
    rw [unpack_good_eq]
    simp only [Option.some.injEq, Prod.mk.injEq]
    refine ⟨_, rfl, ?_⟩
    rw [beq_eq_false_iff_ne]
    have htakef : (flipAt payload k).take l2v = flipAt payload k := by
      apply List.take_of_length_le
      simp [flipAt]
      omega
    have hz := crc32_zip_err_ne
      (s0 :: s1 :: s2 :: s3 :: f :: 0 :: l2v :: payload) (7 + k)
      (payload.length - k - 1) (by simp; omega)
    rw [show List.replicate (7 + k) (0 : Nat) =
        [0, 0, 0, 0, 0, 0, 0] ++ List.replicate k 0 from
      List.replicate_add 7 k 0] at hz
    simp only [List.nil_append, List.cons_append, List.zipWith_cons_cons,
      Nat.xor_zero, Nat.zero_xor] at hz
    rw [← flipAt_eq_zipWith payload k hk] at hz
    rw [← hc] at hz
    simpa [hbe4s, hbe2l, from2_zero, htakef, hc] using hz

/-- C5: for every validly encoded packet (payload length at most
`MAX_PAYLOAD`) and every byte position of the encoded buffer — header,
checksum field, or payload — XOR-ing that one byte with 0xFF yields a
buffer on which `Packet.unpack` returns `checksum_ok = false`. -/
theorem unpack_flip_checksum_bad (seq : Nat) (ack : Bool) (payload : List Nat)
    (buf : List Nat) (i : Nat) (hseq : seq < 4294967296)
    (hlen : payload.length ≤ MAX_PAYLOAD)
    (hpack : Packet.pack ⟨seq, ack, payload⟩ = some buf)
    (hi : i < buf.length) :
    ∃ pkt, Packet.unpack (flipAt buf i) = some (pkt, false) := by
  have hlen32 : payload.length ≤ 32 := hlen
  have hlen' : payload.length < 65536 := by omega
  simp only [Packet.pack, if_pos (And.intro hseq hlen'), Option.some.injEq]
    at hpack
  subst hpack
  have hl1 : payload.length / 256 % 256 = 0 := by omega
  have hl2m : payload.length % 256 = payload.length := by omega
  have hexp : packetBytes seq (if ack then FLAG_ACK else 0) payload =
      seq / 16777216 % 256 :: seq / 65536 % 256 :: seq / 256 % 256 :: seq % 256 ::
      (if ack then FLAG_ACK else 0) :: 0 :: payload.length ::
      crc32 (seq / 16777216 % 256 :: seq / 65536 % 256 :: seq / 256 % 256 ::
          seq % 256 :: (if ack then FLAG_ACK else 0) :: 0 :: payload.length ::
          payload) / 16777216 % 256 ::
      crc32 (seq / 16777216 % 256 :: seq / 65536 % 256 :: seq / 256 % 256 ::
          seq % 256 :: (if ack then FLAG_ACK else 0) :: 0 :: payload.length ::
          payload) / 65536 % 256 ::
      crc32 (seq / 16777216 % 256 :: seq / 65536 % 256 :: seq / 256 % 256 ::
          seq % 256 :: (if ack then FLAG_ACK else 0) :: 0 :: payload.length ::
          payload) / 256 % 256 ::
      crc32 (seq / 16777216 % 256 :: seq / 65536 % 256 :: seq / 256 % 256 ::
          seq % 256 :: (if ack then FLAG_ACK else 0) :: 0 :: payload.length ::
          payload) % 256 :: payload := by
    simp only [packetBytes, be4, be2, hl1, hl2m, List.cons_append,
      List.nil_append, List.append_assoc]
  rw [hexp] at hi ⊢
  have hiB : i < 11 + payload.length := by
    simp only [List.length_cons] at hi
    omega
  exact unpack_flip_generic _ _ _ _ _ _ payload _ _ _ _ i
    (Nat.mod_lt _ (by norm_num)) (Nat.mod_lt _ (by norm_num))
    (Nat.mod_lt _ (by norm_num)) (Nat.mod_lt _ (by norm_num))
    rfl hlen32 (from4_be4 (crc32_lt _)) hiB

/-- Witness for C5: flipping byte 3 of the packed form of
`Packet(1, ack=False, payload=[5])`. -/
theorem unpack_flip_checksum_bad_witness :
    ∃ pkt, Packet.unpack
      (flipAt [0, 0, 0, 1, 0, 0, 1, 49, 51, 51, 23, 5] 3) =
      some (pkt, false) :=
  unpack_flip_checksum_bad 1 false [5]
    [0, 0, 0, 1, 0, 0, 1, 49, 51, 51, 23, 5] 3
    (by norm_num) (by decide)
    (by set_option maxRecDepth 20000 in decide) (by decide)

/-! ## Receiver lemmas: the in-order drain loop -/

theorem lookup_filterKey_self (buf : List (Nat × List Nat)) (e : Nat) :
    (buf.filter fun p => p.1 != e).lookup e = none := by
  rw [List.lookup_eq_none_iff]
  intro p hp
  have h2 := (List.mem_filter.mp hp).2
  have h3 : p.1 ≠ e := by simpa using h2
  simpa using Ne.symm h3

theorem lookup_filterKey_ne (buf : List (Nat × List Nat)) (e s : Nat)
    (hne : s ≠ e) :
    (buf.filter fun p => p.1 != e).lookup s = buf.lookup s := by
  induction buf with
  | nil => simp
  | cons p rest ih =>
      obtain ⟨k, v⟩ := p
      have hse : (s == e) = false := by simpa using hne
      by_cases hk : k = e <;>
        simp [List.filter_cons, List.lookup_cons, hk, ih, hne, hse]

theorem length_filterKey_lt {buf : List (Nat × List Nat)} {e : Nat}
    {piece : List Nat} (h : buf.lookup e = some piece) :
    (buf.filter fun p => p.1 != e).length < buf.length := by
  have hex : ∃ p ∈ buf, e == p.1 := by
    have h1 := List.lookup_isSome_iff (l := buf) (k := e)
    rw [h] at h1
    simpa using h1
  obtain ⟨p, hp, hpe⟩ := hex
  have hpe' : p.1 = e := (eq_of_beq hpe).symm
  have hsub : List.Sublist (buf.filter fun q => q.1 != e) buf :=
    List.filter_sublist buf
  have hle := hsub.length_le
  have hne : (buf.filter fun q => q.1 != e) ≠ buf := by
    intro hc
    have hmem : p ∈ buf.filter fun q => q.1 != e := by rw [hc]; exact hp
    have := (List.mem_filter.mp hmem).2
    simp [hpe'] at this
  have hlt : (buf.filter fun q => q.1 != e).length ≠ buf.length :=
    fun hl => hne (hsub.eq_of_length hl)
  omega

/-- Unfolding `drain` when the expected seq is buffered. -/
theorem drain_eq_of_some {e : Nat} {buf : List (Nat × List Nat)}
    {q : List (List Nat)} {piece : List Nat} (h : buf.lookup e = some piece) :
    drain e buf q = drain (e + 1) (buf.filter fun p => p.1 != e) (q ++ [piece]) := by
  rw [drain]
  split
  · rename_i piece' h'
    rw [h] at h'
    injection h' with h''
    rw [h'']
  · rename_i h'
    rw [h] at h'
    exact absurd h' (by simp)

/-- Unfolding `drain` when the expected seq is not buffered. -/
theorem drain_eq_of_none {e : Nat} {buf : List (Nat × List Nat)}
    {q : List (List Nat)} (h : buf.lookup e = none) :
    drain e buf q = (e, buf, q) := by
  rw [drain]
  split
  · rename_i piece' h'
    rw [h] at h'
    exact absurd h' (by simp)
  · rfl

/-- The flush loop's postcondition, relative to a set `S` of received
seqs with payloads given by `f`: if the buffer holds exactly the
members of `S` at or above `e` and the queue holds `f` over `[0, e)`
with all of `[0, e)` in `S`, then after draining, the new `expected` is
the least seq outside `S`, the buffer holds the members of `S` at or
above it, and the queue holds `f` over the delivered prefix. -/
theorem drain_inv (f : Nat → List Nat) :
    ∀ (n : Nat) (buf : List (Nat × List Nat)) (e : Nat) (q : List (List Nat))
      (S : Finset Nat), buf.length ≤ n →
      (∀ k, k < e → k ∈ S) →
      (∀ s, buf.lookup s = if s ∈ S ∧ e ≤ s then some (f s) else none) →
      q = (List.range e).map f →
      (∀ k, k < (drain e buf q).1 → k ∈ S) ∧
      (drain e buf q).1 ∉ S ∧
      (∀ s, (drain e buf q).2.1.lookup s =
        if s ∈ S ∧ (drain e buf q).1 ≤ s then some (f s) else none) ∧
      (drain e buf q).2.2 = (List.range (drain e buf q).1).map f := by
  intro n
  induction n with
  | zero =>
      intro buf e q S hn h1 h2 h3
      have hbuf : buf = [] := List.eq_nil_of_length_eq_zero (by omega)
      subst hbuf
      have hnone : ([] : List (Nat × List Nat)).lookup e = none := by simp
      rw [drain_eq_of_none hnone]
      have he : ¬(e ∈ S ∧ e ≤ e) := by
        intro hc
        have := h2 e
        rw [if_pos hc] at this
        simp at this
      refine ⟨h1, fun hc => he ⟨hc, le_refl e⟩, ?_, h3⟩
      intro s
      simpa using h2 s
  | succ n ih =>
      intro buf e q S hn h1 h2 h3
      cases hl : buf.lookup e with
      | none =>
          rw [drain_eq_of_none hl]
          have he : ¬(e ∈ S ∧ e ≤ e) := by
            intro hc
            have := h2 e
            rw [if_pos hc, hl] at this
            exact absurd this (by simp)
          exact ⟨h1, fun hc => he ⟨hc, le_refl e⟩, h2, h3⟩
      | some piece =>
          have heS : e ∈ S ∧ piece = f e := by
            have := h2 e
            rw [hl] at this
            by_cases hc : e ∈ S ∧ e ≤ e
            · rw [if_pos hc] at this
              exact ⟨hc.1, by injection this⟩
            · rw [if_neg hc] at this
              exact absurd this (by simp)
          rw [drain_eq_of_some hl]
          have hfl : (buf.filter fun p => p.1 != e).length ≤ n := by
            have := length_filterKey_lt hl
            omega
          have h1' : ∀ k, k < e + 1 → k ∈ S := by
            intro k hk
            rcases Nat.lt_or_ge k e with h | h
            · exact h1 k h
            · have : k = e := by omega
              rw [this]
              exact heS.1
          have h2' : ∀ s, (buf.filter fun p => p.1 != e).lookup s =
              if s ∈ S ∧ e + 1 ≤ s then some (f s) else none := by
            intro s
            by_cases hs : s = e
            · subst hs
              rw [lookup_filterKey_self]
              rw [if_neg (by omega)]
            · rw [lookup_filterKey_ne buf e s hs, h2 s]
              by_cases hc : s ∈ S ∧ e ≤ s
              · rw [if_pos hc, if_pos ⟨hc.1, by omega⟩]
              · rw [if_neg hc, if_neg (by intro hc2; exact hc ⟨hc2.1, by omega⟩)]
          have h3' : q ++ [piece] = (List.range (e + 1)).map f := by
            rw [heS.2, h3, List.range_succ]
            simp
          exact ih (buf.filter fun p => p.1 != e) (e + 1) (q ++ [piece]) S
            hfl h1' h2' h3'

/-- The flush loop only moves `expected` forward. -/
theorem drain_fst_ge :
    ∀ (n : Nat) (buf : List (Nat × List Nat)) (e : Nat) (q : List (List Nat)),
      buf.length ≤ n → e ≤ (drain e buf q).1 := by
  intro n
  induction n with
  | zero =>
      intro buf e q hn
      have hbuf : buf = [] := List.eq_nil_of_length_eq_zero (by omega)
      subst hbuf
      rw [drain_eq_of_none (by simp)]
  | succ n ih =>
      intro buf e q hn
      cases hl : buf.lookup e with
      | none => rw [drain_eq_of_none hl]
      | some piece =>
          rw [drain_eq_of_some hl]
          have hfl : (buf.filter fun p => p.1 != e).length ≤ n := by
            have := length_filterKey_lt hl
            omega
          have := ih (buf.filter fun p => p.1 != e) (e + 1) (q ++ [piece]) hfl
          omega

/-- A buffered seq either survives the flush or was delivered (its seq
now lies below the new `expected`). -/
theorem drain_keeps_or_delivers :
    ∀ (n : Nat) (buf : List (Nat × List Nat)) (e : Nat) (q : List (List Nat))
      (s : Nat), buf.length ≤ n → (buf.lookup s).isSome →
      ((drain e buf q).2.1.lookup s).isSome ∨ s < (drain e buf q).1 := by
  intro n
  induction n with
  | zero =>
      intro buf e q s hn hs
      have hbuf : buf = [] := List.eq_nil_of_length_eq_zero (by omega)
      subst hbuf
      simp at hs
  | succ n ih =>
      intro buf e q s hn hs
      cases hl : buf.lookup e with
      | none =>
          rw [drain_eq_of_none hl]
          exact Or.inl hs
      | some piece =>
          rw [drain_eq_of_some hl]
          have hfl : (buf.filter fun p => p.1 != e).length ≤ n := by
            have := length_filterKey_lt hl
            omega
          by_cases hse : s = e
          · subst hse
            right
            have := drain_fst_ge n (buf.filter fun p => p.1 != s) (s + 1)
              (q ++ [piece]) hfl
            omega
          · have hs' : ((buf.filter fun p => p.1 != e).lookup s).isSome := by
              rw [lookup_filterKey_ne buf e s hse]
              exact hs
            exact ih (buf.filter fun p => p.1 != e) (e + 1) (q ++ [piece]) s
              hfl hs'

theorem eq_nil_of_lookup_none {buf : List (Nat × List Nat)}
    (h : ∀ s, buf.lookup s = none) : buf = [] := by
  cases buf with
  | nil => rfl
  | cons p rest =>
      obtain ⟨k, v⟩ := p
      have := h k
      simp at this

/-- One `_on_data` step on a fresh seq `s ∉ S` preserves the receiver
invariant, enlarging the received set to `insert s S`. -/
theorem onData_inv (f : Nat → List Nat) (st : RecvState) (S : Finset Nat)
    (s : Nat)
    (h1 : ∀ k, k < st.expected → k ∈ S)
    (h2 : ∀ x, st.recv_buf.lookup x =
      if x ∈ S ∧ st.expected ≤ x then some (f x) else none)
    (h3 : st.app_queue = (List.range st.expected).map f)
    (hnew : s ∉ S) :
    (∀ k, k < ((onData st s (f s)).2).expected → k ∈ insert s S) ∧
    ((onData st s (f s)).2).expected ∉ insert s S ∧
    (∀ x, ((onData st s (f s)).2).recv_buf.lookup x =
      if x ∈ insert s S ∧ ((onData st s (f s)).2).expected ≤ x
      then some (f x) else none) ∧
    ((onData st s (f s)).2).app_queue =
      (List.range ((onData st s (f s)).2).expected).map f := by
  have hslt : ¬ s < st.expected := fun hlt => hnew (h1 s hlt)
  have hlook : st.recv_buf.lookup s = none := by
    rw [h2 s, if_neg (fun hc => hnew hc.1)]
  have hstep : (onData st s (f s)).2 =
      ⟨(drain st.expected ((s, f s) :: st.recv_buf) st.app_queue).1,
        (drain st.expected ((s, f s) :: st.recv_buf) st.app_queue).2.1,
        (drain st.expected ((s, f s) :: st.recv_buf) st.app_queue).2.2⟩ := by
    simp [onData, hslt, hlook]
  have h1' : ∀ k, k < st.expected → k ∈ insert s S :=
    fun k hk => Finset.mem_insert_of_mem (h1 k hk)
  have h2' : ∀ x, ((s, f s) :: st.recv_buf).lookup x =
      if x ∈ insert s S ∧ st.expected ≤ x then some (f x) else none := by
    intro x
    rw [List.lookup_cons]
    by_cases hx : x = s
    · subst hx
      have hxx : (x == x) = true := by simp
      rw [hxx]
      rw [if_pos ⟨Finset.mem_insert_self x S, by omega⟩]
    · have hxs : (x == s) = false := by simpa using hx
      rw [hxs]
      simp only [Bool.false_eq_true, if_false]
      rw [h2 x]
      by_cases hc : x ∈ S ∧ st.expected ≤ x
      · rw [if_pos hc, if_pos ⟨Finset.mem_insert_of_mem hc.1, hc.2⟩]
      · rw [if_neg hc, if_neg ?_]
        intro hc2
        exact hc ⟨(Finset.mem_insert.mp hc2.1).resolve_left hx, hc2.2⟩
  obtain ⟨d1, d2, d3, d4⟩ := drain_inv f ((s, f s) :: st.recv_buf).length
    ((s, f s) :: st.recv_buf) st.expected st.app_queue (insert s S)
    (le_refl _) h1' h2' h3
  rw [hstep]
  exact ⟨d1, d2, d3, d4⟩

/-- Processing a list of pairwise-distinct fresh seqs preserves the
receiver invariant, enlarging the received set by the list's members. -/
theorem processData_inv (f : Nat → List Nat) :
    ∀ (l : List Nat) (st : RecvState) (S : Finset Nat),
      (∀ k, k < st.expected → k ∈ S) →
      st.expected ∉ S →
      (∀ x, st.recv_buf.lookup x =
        if x ∈ S ∧ st.expected ≤ x then some (f x) else none) →
      st.app_queue = (List.range st.expected).map f →
      l.Nodup → (∀ x ∈ l, x ∉ S) →
      (∀ k, k < (processData st (l.map fun s => (s, f s))).expected →
        k ∈ S ∪ l.toFinset) ∧
      (processData st (l.map fun s => (s, f s))).expected ∉ S ∪ l.toFinset ∧
      (∀ x, (processData st (l.map fun s => (s, f s))).recv_buf.lookup x =
        if x ∈ S ∪ l.toFinset ∧
            (processData st (l.map fun s => (s, f s))).expected ≤ x
        then some (f x) else none) ∧
      (processData st (l.map fun s => (s, f s))).app_queue =
        (List.range (processData st (l.map fun s => (s, f s))).expected).map f := by
  intro l
  induction l with
  | nil =>
      intro st S h1 hE h2 h3 hnd hfresh
      simp only [List.map_nil, processData, List.foldl_nil, List.toFinset_nil,
        Finset.union_empty]
      exact ⟨h1, hE, h2, h3⟩
  | cons s t ih =>
      intro st S h1 hE h2 h3 hnd hfresh
      have hsf : s ∉ S := hfresh s (List.mem_cons_self s t)
      obtain ⟨d1, d2, d3, d4⟩ := onData_inv f st S s h1 h2 h3 hsf
      have hfold : processData st ((s :: t).map fun x => (x, f x)) =
          processData ((onData st s (f s)).2) (t.map fun x => (x, f x)) := by
        simp [processData]
      have hndt : t.Nodup := hnd.of_cons
      have hst : s ∉ t := by
        have := List.nodup_cons.mp hnd
        exact this.1
      have hfresh' : ∀ x ∈ t, x ∉ insert s S := by
        intro x hx hmem
        rcases Finset.mem_insert.mp hmem with rfl | hxS
        · exact hst hx
        · exact hfresh x (List.mem_cons_of_mem s hx) hxS
      obtain ⟨e1, e2, e3, e4⟩ := ih ((onData st s (f s)).2) (insert s S)
        d1 d2 d3 d4 hndt hfresh'
      have hsets : insert s S ∪ t.toFinset = S ∪ (s :: t).toFinset := by
        rw [List.toFinset_cons, Finset.insert_union, Finset.union_insert]
      rw [hfold, ← hsets]
      exact ⟨e1, e2, e3, e4⟩

/-- C2: starting from the fresh receiver state, if `_on_data` processes
N valid DATA packets whose seqs form an arbitrary permutation of
`{0..N-1}` (payloads given by `f`), then afterwards `app_queue` holds
exactly the N payloads ordered by seq, `expected = N`, and `recv_buf`
is empty; moreover after any prefix of the processing, `app_queue` is
`f` over an initial segment `[0, e)` of the seqs, so the payload of
seq k is appended only after those of seqs `0..k-1`. -/
theorem onData_permutation_delivery (N : Nat) (f : Nat → List Nat)
    (perm : List Nat) (hnd : perm.Nodup) (hlt : ∀ s ∈ perm, s < N)
    (hlenp : perm.length = N) :
    (processData initRecv (perm.map fun s => (s, f s))).app_queue =
      (List.range N).map f ∧
    (processData initRecv (perm.map fun s => (s, f s))).expected = N ∧
    (processData initRecv (perm.map fun s => (s, f s))).recv_buf = [] ∧
    (∀ k, ∃ e, (processData initRecv ((perm.take k).map fun s => (s, f s))).app_queue =
      (List.range e).map f) := by
  have hbase1 : ∀ k, k < initRecv.expected → k ∈ (∅ : Finset Nat) := by
    intro k hk
    simp [initRecv] at hk
  have hbase2 : initRecv.expected ∉ (∅ : Finset Nat) := by simp
  have hbase3 : ∀ x, initRecv.recv_buf.lookup x =
      if x ∈ (∅ : Finset Nat) ∧ initRecv.expected ≤ x
      then some (f x) else none := by
    intro x
    simp [initRecv]
  have hbase4 : initRecv.app_queue = (List.range initRecv.expected).map f := by
    simp [initRecv]
  obtain ⟨d1, d2, d3, d4⟩ := processData_inv f perm initRecv ∅
    hbase1 hbase2 hbase3 hbase4 hnd (by simp)
  have hTF : (∅ : Finset Nat) ∪ perm.toFinset = Finset.range N := by
    rw [Finset.empty_union]
    apply Finset.eq_of_subset_of_card_le
    · intro x hx
      rw [Finset.mem_range]
      exact hlt x (List.mem_toFinset.mp hx)
    · rw [Finset.card_range, List.toFinset_card_of_nodup hnd, hlenp]
  rw [hTF] at d1 d2 d3
  have hexp : (processData initRecv (perm.map fun s => (s, f s))).expected = N := by
    have hle : (processData initRecv (perm.map fun s => (s, f s))).expected ≤ N := by
      by_contra hgt
      push_neg at hgt
      have := d1 N (by omega)
      rw [Finset.mem_range] at this
      omega
    have hge : ¬ (processData initRecv (perm.map fun s => (s, f s))).expected < N := by
      intro hlt2
      exact d2 (Finset.mem_range.mpr hlt2)
    omega
  refine ⟨?_, hexp, ?_, ?_⟩
  · rw [d4, hexp]
  · apply eq_nil_of_lookup_none
    intro x
    rw [d3 x, if_neg ?_]
    intro hc
    rw [Finset.mem_range] at hc
    omega
  · intro k
    have hndk : (perm.take k).Nodup := hnd.sublist (List.take_sublist k perm)
    obtain ⟨e1, e2, e3, e4⟩ := processData_inv f (perm.take k) initRecv ∅
      hbase1 hbase2 hbase3 hbase4 hndk (by simp)
    exact ⟨_, e4⟩

/-- Witness for C2: the permutation `[1, 0]` of `{0, 1}` with payloads
`f s = [s]`. -/
theorem onData_permutation_delivery_witness :
    (processData initRecv ([1, 0].map fun s => (s, [s]))).app_queue =
      (List.range 2).map (fun s => [s]) ∧
    (processData initRecv ([1, 0].map fun s => (s, [s]))).expected = 2 ∧
    (processData initRecv ([1, 0].map fun s => (s, [s]))).recv_buf = [] ∧
    (∀ k, ∃ e, (processData initRecv (([1, 0].take k).map fun s => (s, [s]))).app_queue =
      (List.range e).map (fun s => [s])) :=
  onData_permutation_delivery 2 (fun s => [s]) [1, 0] (by decide)
    (by decide) (by decide)

/-- C4: a DATA packet whose seq is below `expected` or already buffered
causes `_on_data` to emit exactly one ACK for that seq (the ACK is
produced unconditionally, before the duplicate filtering) and to leave
the receiver state unchanged; a fresh in-order packet is delivered
exactly once; and processing the same DATA packet K ≥ 1 times yields
the state of processing it once while emitting K ACKs. -/
theorem onData_duplicate (st : RecvState) (s : Nat) (p : List Nat) :
    ((s < st.expected ∨ (st.recv_buf.lookup s).isSome) →
      onData st s p = ([s], st)) ∧
    (st.recv_buf = [] → s = st.expected →
      onData st s p = ([s], ⟨st.expected + 1, [], st.app_queue ++ [p]⟩)) ∧
    (∀ K, 1 ≤ K →
      processDataAcks st (List.replicate K (s, p)) =
        (List.replicate K s, (onData st s p).2)) := by
  have ha : ∀ st1 : RecvState,
      (s < st1.expected ∨ (st1.recv_buf.lookup s).isSome) →
      onData st1 s p = ([s], st1) := by
    intro st1 hd
    rcases hd with h | h
    · simp [onData, h]
    · by_cases h1 : s < st1.expected
      · simp [onData, h1]
      · simp [onData, h1, h]
  have hb : st.recv_buf = [] → s = st.expected →
      onData st s p = ([s], ⟨st.expected + 1, [], st.app_queue ++ [p]⟩) := by
    intro hbuf hse
    have h1 : ¬ s < st.expected := by omega
    have h2 : st.recv_buf.lookup s = none := by rw [hbuf]; simp
    have hlk : ((s, p) :: st.recv_buf).lookup st.expected = some p := by
      rw [← hse, hbuf]
      simp
    have hfl : ((s, p) :: st.recv_buf).filter (fun q => q.1 != st.expected) = [] := by
      rw [← hse, hbuf]
      simp
    have hdr : drain st.expected ((s, p) :: st.recv_buf) st.app_queue =
        (st.expected + 1, [], st.app_queue ++ [p]) := by
      rw [drain_eq_of_some hlk, hfl, drain_eq_of_none (by simp)]
    have hsome : (st.recv_buf.lookup s).isSome = false := by rw [h2]; rfl
    simp [onData, h1, hsome, hdr]
  have hdup1 : s < ((onData st s p).2).expected ∨
      (((onData st s p).2).recv_buf.lookup s).isSome := by
    by_cases h1 : s < st.expected
    · left
      simp [onData, h1]
    · by_cases h2 : (st.recv_buf.lookup s).isSome
      · right
        simp [onData, h1, h2]
      · have hlk : (((s, p) :: st.recv_buf).lookup s).isSome := by simp
        have hkd := drain_keeps_or_delivers ((s, p) :: st.recv_buf).length
          ((s, p) :: st.recv_buf) st.expected st.app_queue s (le_refl _) hlk
        have hstep : (onData st s p).2 =
            ⟨(drain st.expected ((s, p) :: st.recv_buf) st.app_queue).1,
              (drain st.expected ((s, p) :: st.recv_buf) st.app_queue).2.1,
              (drain st.expected ((s, p) :: st.recv_buf) st.app_queue).2.2⟩ := by
          simp [onData, h1, h2]
        rcases hkd with h | h
        · right
          rw [hstep]
          exact h
        · left
          rw [hstep]
          exact h
  refine ⟨ha st, hb, ?_⟩
  have hrep : ∀ (K : Nat) (st1 : RecvState) (acc : List Nat),
      (s < st1.expected ∨ (st1.recv_buf.lookup s).isSome) →
      (List.replicate K (s, p)).foldl
        (fun acc q =>
          let r := onData acc.2 q.1 q.2
          (acc.1 ++ r.1, r.2)) (acc, st1) =
        (acc ++ List.replicate K s, st1) := by
    intro K
    induction K with
    | zero =>
        intro st1 acc hd
        simp
    | succ K ihK =>
        intro st1 acc hd
        rw [List.replicate_succ, List.foldl_cons]
        simp only [ha st1 hd]
        have := ihK st1 (acc ++ [s]) hd
        simpa [List.append_assoc, List.replicate_succ] using this
  intro K hK
  cases K with
  | zero => omega
  | succ K =>
      show (List.replicate (K + 1) (s, p)).foldl
          (fun acc q =>
            let r := onData acc.2 q.1 q.2
            (acc.1 ++ r.1, r.2)) ([], st) =
        (List.replicate (K + 1) s, (onData st s p).2)
      rw [List.replicate_succ, List.foldl_cons]
      show List.foldl
          (fun acc q =>
            let r := onData acc.2 q.1 q.2
            (acc.1 ++ r.1, r.2))
          ([s], (onData st s p).2) (List.replicate K (s, p)) =
        (List.replicate (K + 1) s, (onData st s p).2)
      have h2 := hrep K ((onData st s p).2) [s] hdup1
      rw [h2]
      simp [List.replicate_succ]

/-- Witness for C4: a stale seq 3 at `expected = 5` is re-ACKed without
state change; the same in-order packet processed twice delivers once
with two ACKs. -/
theorem onData_duplicate_witness :
    onData ⟨5, [], []⟩ 3 [9] = ([3], ⟨5, [], []⟩) ∧
      processDataAcks ⟨0, [], []⟩ (List.replicate 2 (0, [9])) =
        (List.replicate 2 0, (onData ⟨0, [], []⟩ 0 [9]).2) :=
  ⟨(onData_duplicate ⟨5, [], []⟩ 3 [9]).1 (Or.inl (by decide)),
    (onData_duplicate ⟨0, [], []⟩ 0 [9]).2.2 2 (by decide)⟩

/-! ## Sender lemmas -/

/-- Strengthened sender invariant: the claim's three conjuncts plus the
auxiliary bound that every acked seq is below `next_seq` (needed to
keep `sent` and `acked` disjoint when a fresh seq is recorded). -/
theorem sender_invariant_strong (w : Nat) (st : SenderState)
    (h : ReachSender w st) :
    st.sent.length ≤ w ∧
    (∀ p ∈ st.sent, p.1 < st.next_seq) ∧
    (∀ p ∈ st.sent, p.1 ∉ st.acked) ∧
    (∀ a ∈ st.acked, a < st.next_seq) := by
  induction h with
  | init => simp
  | send st pktBytes t hre hwin ih =>
      obtain ⟨ih1, ih2, ih3, ih4⟩ := ih
      have hfl : st.sent.filter (fun p => decide (p.1 ∉ st.acked)) = st.sent := by
        rw [List.filter_eq_self]
        intro p hp
        simpa using ih3 p hp
      have hlen : st.sent.length < w := by
        rw [inflight, hfl] at hwin
        exact hwin
      refine ⟨?_, ?_, ?_, ?_⟩
      · simpa [sendChunk] using hlen
      · intro p hp
        rcases List.mem_cons.mp hp with rfl | hp'
        · simp [sendChunk]
        · have := ih2 p hp'
          simp only [sendChunk]
          omega
      · intro p hp
        rcases List.mem_cons.mp hp with rfl | hp'
        · intro hmem
          have := ih4 _ hmem
          simp only [sendChunk] at this ⊢
          omega
        · exact ih3 p hp'
      · intro a ha
        have := ih4 a ha
        simp only [sendChunk]
        omega
  | ack st a hre ih =>
      obtain ⟨ih1, ih2, ih3, ih4⟩ := ih
      by_cases hs : (st.sent.lookup a).isSome
      · have haN : a < st.next_seq := by
          obtain ⟨p, hp, hpe⟩ := List.lookup_isSome_iff.mp hs
          have : a = p.1 := eq_of_beq hpe
          rw [this]
          exact ih2 p hp
        have hsub : List.Sublist (st.sent.filter fun p => p.1 != a) st.sent :=
          List.filter_sublist st.sent
        refine ⟨?_, ?_, ?_, ?_⟩
        · simp only [onAckSender, hs, if_true]
          exact le_trans hsub.length_le ih1
        · intro p hp
          simp only [onAckSender, hs, if_true] at hp ⊢
          exact ih2 p (hsub.mem hp)
        · intro p hp
          simp only [onAckSender, hs, if_true] at hp ⊢
          have hmem := List.mem_filter.mp hp
          have hne : p.1 ≠ a := by simpa using hmem.2
          intro hins
          rcases Finset.mem_insert.mp hins with h' | h'
          · exact hne h'
          · exact ih3 p hmem.1 h'
        · intro b hb
          simp only [onAckSender, hs, if_true] at hb ⊢
          rcases Finset.mem_insert.mp hb with rfl | h'
          · exact haN
          · exact ih4 b h'
      · have hst : onAckSender st a = st := by simp [onAckSender, hs]
        rw [hst]
        exact ⟨ih1, ih2, ih3, ih4⟩
  | retx st a t hre ih =>
      obtain ⟨ih1, ih2, ih3, ih4⟩ := ih
      cases hl : st.sent.lookup a with
      | none =>
          have hst : retxRefresh st a t = st := by simp [retxRefresh, hl]
          rw [hst]
          exact ⟨ih1, ih2, ih3, ih4⟩
      | some rec =>
          obtain ⟨bytes, told⟩ := rec
          have hkey : ∀ p ∈ st.sent.map
              (fun p => if p.1 = a then (a, (bytes, t)) else p),
              ∃ q ∈ st.sent, p.1 = q.1 := by
            intro p hp
            obtain ⟨q, hq, hqe⟩ := List.mem_map.mp hp
            by_cases hqa : q.1 = a
            · refine ⟨q, hq, ?_⟩
              rw [← hqe]
              simp [hqa]
            · refine ⟨q, hq, ?_⟩
              rw [← hqe]
              simp [hqa]
          refine ⟨?_, ?_, ?_, ?_⟩
          · simpa [retxRefresh, hl] using ih1
          · intro p hp
            simp only [retxRefresh, hl] at hp ⊢
            obtain ⟨q, hq, hqe⟩ := hkey p hp
            rw [hqe]
            exact ih2 q hq
          · intro p hp
            simp only [retxRefresh, hl] at hp ⊢
            obtain ⟨q, hq, hqe⟩ := hkey p hp
            rw [hqe]
            exact ih3 q hq
          · intro b hb
            simp only [retxRefresh, hl] at hb ⊢
            exact ih4 b hb

/-- C3: the sender-state invariant — `|sent| ≤ window`, every key of
`sent` is below `next_seq`, and `sent` and `acked` are disjoint — holds
in the fresh sender state and in every state reachable from it through
`send`'s guarded allocation-and-record step, `_on_ack`, and the
retransmission sweep's timer refresh. -/
theorem sender_invariant (w : Nat) (st : SenderState)
    (h : ReachSender w st) :
    st.sent.length ≤ w ∧
    (∀ p ∈ st.sent, p.1 < st.next_seq) ∧
    (∀ p ∈ st.sent, p.1 ∉ st.acked) := by
  obtain ⟨h1, h2, h3, _⟩ := sender_invariant_strong w st h
  exact ⟨h1, h2, h3⟩

/-- Witness for C3: the state reached by recording one chunk from the
fresh state under window 8. -/
theorem sender_invariant_witness :
    (sendChunk ⟨0, [], ∅⟩ [1, 2] 0).sent.length ≤ 8 ∧
    (∀ p ∈ (sendChunk ⟨0, [], ∅⟩ [1, 2] 0).sent,
      p.1 < (sendChunk ⟨0, [], ∅⟩ [1, 2] 0).next_seq) ∧
    (∀ p ∈ (sendChunk ⟨0, [], ∅⟩ [1, 2] 0).sent,
      p.1 ∉ (sendChunk ⟨0, [], ∅⟩ [1, 2] 0).acked) :=
  sender_invariant 8 _
    (ReachSender.send ⟨0, [], ∅⟩ [1, 2] 0 ReachSender.init (by decide))

/-! ## Chunking lemmas for `RDTSession.send` -/

theorem sendChunks_eq_nil {next : Nat} {data : List Nat}
    (h : data.isEmpty = true) : sendChunks next data = (next, []) := by
  rw [sendChunks]
  simp [h]

theorem sendChunks_eq_cons {next : Nat} {data : List Nat}
    (h : data.isEmpty = false) :
    sendChunks next data =
      ((sendChunks (next + 1) (data.drop MAX_PAYLOAD)).1,
        (next, data.take MAX_PAYLOAD) ::
          (sendChunks (next + 1) (data.drop MAX_PAYLOAD)).2) := by
  rw [sendChunks]
  simp [h]

theorem sendChunks_spec_aux :
    ∀ (n : Nat) (data : List Nat) (next : Nat), data.length ≤ n →
      ((sendChunks next data).2.map Prod.snd).flatten = data ∧
      (sendChunks next data).2.map Prod.fst =
        List.range' next (sendChunks next data).2.length ∧
      (sendChunks next data).1 = next + (sendChunks next data).2.length ∧
      (sendChunks next data).2.length = (data.length + 31) / 32 ∧
      (∀ c ∈ (sendChunks next data).2, c.2.length ≤ MAX_PAYLOAD) ∧
      (∀ j, j + 1 < (sendChunks next data).2.length →
        ((sendChunks next data).2.getD j (0, [])).2.length = MAX_PAYLOAD) := by
  intro n
  induction n with
  | zero =>
      intro data next hn
      have hdata : data = [] := List.eq_nil_of_length_eq_zero (by omega)
      subst hdata
      rw [sendChunks_eq_nil (by simp)]
      refine ⟨rfl, rfl, by simp, by norm_num, by simp, by simp⟩
  | succ n ih =>
      intro data next hn
      by_cases he : data.isEmpty = true
      · have hdata : data = [] := List.isEmpty_iff.mp he
        subst hdata
        rw [sendChunks_eq_nil (by simp)]
        refine ⟨rfl, rfl, by simp, by norm_num, by simp, by simp⟩
      · have he' : data.isEmpty = false := by simpa using he
        have hpos : data.length ≠ 0 := by
          simpa [List.isEmpty_iff_length_eq_zero] using he
        rw [sendChunks_eq_cons he']
        have hdl : (data.drop MAX_PAYLOAD).length ≤ n := by
          simp only [List.length_drop, MAX_PAYLOAD]
          omega
        obtain ⟨j1, j2, j3, j4, j5, j6⟩ := ih (data.drop MAX_PAYLOAD) (next + 1) hdl
        have hj4' : (sendChunks (next + 1) (data.drop MAX_PAYLOAD)).2.length =
            (data.length - 32 + 31) / 32 := by
          rw [j4]
          simp [MAX_PAYLOAD]
        refine ⟨?_, ?_, ?_, ?_, ?_, ?_⟩
        · simp only [List.map_cons, List.flatten_cons]
          rw [j1, List.take_append_drop]
        · simp only [List.map_cons, List.length_cons]
          rw [j2]
          rfl
        · simp only [List.length_cons]
          omega
        · simp only [List.length_cons]
          rw [hj4']
          omega
        · intro c hc
          rcases List.mem_cons.mp hc with rfl | hc'
          · simp only [List.length_take, MAX_PAYLOAD]
            omega
          · exact j5 c hc'
        · intro j hj
          cases j with
          | zero =>
              simp only [List.length_cons] at hj
              have hlen32 : 32 ≤ data.length := by
                rw [hj4'] at hj
                omega
              simp only [List.getD_cons_zero, List.length_take, MAX_PAYLOAD]
              omega
          | succ j =>
              simp only [List.length_cons] at hj
              simp only [List.getD_cons_succ]
              exact j6 j (by omega)

/-- C8: `send(data)` partitions `data` into consecutive chunks — the
concatenation of the chunks is `data`, there are exactly
`ceil(len(data)/32)` of them, each is at most `MAX_PAYLOAD` long and
all but possibly the last are exactly `MAX_PAYLOAD` long — and assigns
them consecutive strictly increasing seqs starting at the current
`next_seq`, leaving `next_seq` advanced by the number of chunks. -/
theorem send_chunking (data : List Nat) (next : Nat) :
    ((sendChunks next data).2.map Prod.snd).flatten = data ∧
    (sendChunks next data).2.map Prod.fst =
      List.range' next (sendChunks next data).2.length ∧
    (sendChunks next data).1 = next + (sendChunks next data).2.length ∧
    (sendChunks next data).2.length = (data.length + 31) / 32 ∧
    (∀ c ∈ (sendChunks next data).2, c.2.length ≤ MAX_PAYLOAD) ∧
    (∀ j, j + 1 < (sendChunks next data).2.length →
      ((sendChunks next data).2.getD j (0, [])).2.length = MAX_PAYLOAD) :=
  sendChunks_spec_aux data.length data next (le_refl _)

/-- Witness for C8: 40 bytes from `next_seq = 5` form two chunks, the
first of full `MAX_PAYLOAD` size. -/
theorem send_chunking_witness :
    ((sendChunks 5 (List.replicate 40 7)).2.getD 0 (0, [])).2.length =
      MAX_PAYLOAD := by
  have h := send_chunking (List.replicate 40 7) 5
  apply h.2.2.2.2.2 0
  rw [h.2.2.2.1]
  norm_num

/-! ## Demultiplexing: dispatch on bit 0 of the flags byte only -/

/-- C10: for a valid-CRC datagram, `handle_raw` dispatches on bit 0 of
the flags byte alone: any datagram with bit 0 clear — reserved bits
set or not — is handled as DATA (its payload goes to `_on_data`), and
any datagram with bit 0 set is handled as an ACK even if it carries a
nonempty payload; reserved bits and the ACK payload length are never
validated. -/
theorem handleRaw_dispatch_bit0 (s : Session) (seq flags : Nat)
    (payload : List Nat) (hseq : seq < 4294967296)
    (hlen : payload.length < 65536) :
    (flags &&& 1 = 0 →
      handleRaw s (packetBytes seq flags payload) =
        ((onData s.receiver seq payload).1,
          { s with receiver := (onData s.receiver seq payload).2 })) ∧
    (flags &&& 1 ≠ 0 →
      handleRaw s (packetBytes seq flags payload) =
        ([], { s with sender := onAckSender s.sender seq })) := by
  have hu := unpack_packetBytes seq flags payload hseq hlen
  constructor
  · intro h0
    have hm0 : flags % 2 = 0 := by rwa [Nat.and_one_is_mod] at h0
    simp [handleRaw, hu, hm0]
  · intro h1
    have hm1 : flags % 2 = 1 := by
      rw [Nat.and_one_is_mod] at h1
      omega
    simp [handleRaw, hu, hm1]

/-- Witness for C10: flags byte 0x02 (a reserved bit, bit 0 clear) is
handled as DATA; flags byte 0x01 with a nonempty payload is handled as
an ACK. -/
theorem handleRaw_dispatch_bit0_witness :
    handleRaw ⟨⟨0, [], ∅⟩, ⟨0, [], []⟩⟩ (packetBytes 0 2 [7]) =
      ((onData ⟨0, [], []⟩ 0 [7]).1,
        ⟨⟨0, [], ∅⟩, (onData ⟨0, [], []⟩ 0 [7]).2⟩) ∧
    handleRaw ⟨⟨0, [], ∅⟩, ⟨0, [], []⟩⟩ (packetBytes 3 1 [7]) =
      ([], ⟨onAckSender ⟨0, [], ∅⟩ 3, ⟨0, [], []⟩⟩) :=
  ⟨(handleRaw_dispatch_bit0 ⟨⟨0, [], ∅⟩, ⟨0, [], []⟩⟩ 0 2 [7]
      (by norm_num) (by norm_num)).1 (by decide),
    (handleRaw_dispatch_bit0 ⟨⟨0, [], ∅⟩, ⟨0, [], []⟩⟩ 3 1 [7]
      (by norm_num) (by norm_num)).2 (by decide)⟩

/-- Witness for C9 at `data = [7, 8]`, `i = 1`. -/
theorem corrupt_spec_witness :
    corrupt ([] : List Nat) 1 = [] ∧
      ((corrupt [7, 8] 1).length = 2 ∧
        (corrupt [7, 8] 1).getD 1 0 = 8 ^^^ 255 ∧
        (corrupt [7, 8] 1).getD 1 0 ≠ 8 ∧
        ∀ j, j ≠ 1 → (corrupt [7, 8] 1).getD j 0 = [7, 8].getD j 0) := by
  have h := corrupt_spec [7, 8] 1
  have h2 := h.2 (by decide)
  exact ⟨h.1, by simpa using h2⟩

end RDT
